import Mathlib

/-!
Verification development for the AwesomeSearch client-side data-management core.

The JavaScript modules under `src/services` and the React reducer modules are
shallowly embedded below: JS strings are modelled as `String` (lists of
characters), reducers become pure Lean functions on explicit state records,
wall-clock reads (`new Date().toISOString()`) become an explicit `now`
parameter, and code that can raise a `TypeError` is modelled in `Except`.
-/

namespace AwesomeSearch

/-! ## JavaScript string primitives

Character-level models of the JS string operations the embedded code uses:
`String.prototype.trim`, `split`, `includes`, `startsWith`, and the `x || y`
idiom on strings (empty string is falsy). -/

/-- Model of `String.prototype.trim`: drop whitespace from both ends of a
character list. -/
def trimChars (l : List Char) : List Char :=
  ((l.dropWhile Char.isWhitespace).reverse.dropWhile Char.isWhitespace).reverse

/-- `s.trim()` on a JS string. -/
def jsTrimS (s : String) : String :=
  String.mk (trimChars s.toList)

/-- Auxiliary for `split(sep)`: returns the first segment and the remaining
segments of a character list. -/
def splitOnCharAux (sep : Char) : List Char → List Char × List (List Char)
  | [] => ([], [])
  | c :: r =>
      let p := splitOnCharAux sep r
      if c = sep then ([], p.1 :: p.2) else (c :: p.1, p.2)

/-- Model of `s.split(sep)` for a one-character separator: always returns a
nonempty list of segments. -/
def splitOnChar (sep : Char) (l : List Char) : List (List Char) :=
  (splitOnCharAux sep l).1 :: (splitOnCharAux sep l).2

/-- `s.split(sep)` on JS strings, one-character separator. -/
def jsSplitChar (sep : Char) (s : String) : List String :=
  (splitOnChar sep s.toList).map String.mk

/-- Model of `s.includes(sub)`: substring containment. -/
def jsIncludes (s sub : String) : Bool :=
  decide (List.IsInfix sub.toList s.toList)

/-- Model of `s.startsWith(pre)`. -/
def jsStartsWith (s pre : String) : Bool :=
  pre.toList.isPrefixOf s.toList

/-- Model of the JS `a || b` idiom on strings: the empty string is falsy. -/
def jsOrS (a b : String) : String :=
  if a = "" then b else a

/-- Model of `s.toLowerCase()`, character by character. -/
def jsToLower (s : String) : String :=
  String.mk (s.toList.map Char.toLower)

/-! ## List-Management State Manager

Embeds `listManagementReducer` from `src/containers/AwesomeSearch/AwesomeSearch.js`.
The state holds the disabled sources, the favorites and the user-added custom
lists; each reducer case is translated clause for clause. -/

/-- A user-added custom source descriptor (`repo`, `name`, `user`, optional
`description`). -/
structure CustomList where
  repo : String
  name : String
  user : String
  description : String
deriving DecidableEq, Repr

/-- State of `listManagementReducer`. -/
structure LMState where
  disabledLists : List String
  favoritesList : List String
  customLists : List CustomList
  loading : Bool
deriving DecidableEq, Repr

/-- `initialState` of the list-management reducer. -/
def lmInitialState : LMState :=
  { disabledLists := [], favoritesList := [], customLists := [], loading := true }

/-- Actions of `listManagementReducer` (one constructor per `ACTIONS` entry). -/
inductive LMAction where
  | loadConfig (disabled favorites : List String) (customs : List CustomList)
  | toggleList (repo : String)
  | enableAll
  | disableAll (repos : List String)
  | addCustomList (l : CustomList)
  | removeCustomList (repo : String)
  | addToFavorites (repo : String)
  | removeFromFavorites (repo : String)
  | setLoading (b : Bool)
deriving DecidableEq, Repr

/-- `listManagementReducer(state, action)` translated case by case.
`LOAD_CONFIG` spreads the payload fields dispatched by the provider
(`disabledLists`, `favoritesList`, `customLists`) and clears `loading`. -/
def listManagementReducer (state : LMState) (action : LMAction) : LMState :=
  match action with
  | .loadConfig disabled favorites customs =>
      { state with
        disabledLists := disabled, favoritesList := favorites,
        customLists := customs, loading := false }
  | .toggleList repo =>
      if state.disabledLists.contains repo then
        { state with disabledLists := state.disabledLists.filter (fun r => r != repo) }
      else
        { state with disabledLists := state.disabledLists ++ [repo] }
  | .enableAll =>
      { state with disabledLists := [] }
  | .disableAll repos =>
      { state with disabledLists := repos }
  | .addCustomList l =>
      if state.customLists.any (fun l2 => l2.repo == l.repo) then state
      else { state with customLists := state.customLists ++ [l] }
  | .removeCustomList repo =>
      { state with customLists := state.customLists.filter (fun l => l.repo != repo) }
  | .addToFavorites repo =>
      if state.favoritesList.contains repo then state
      else { state with favoritesList := state.favoritesList ++ [repo] }
  | .removeFromFavorites repo =>
      { state with favoritesList := state.favoritesList.filter (fun r => r != repo) }
  | .setLoading b =>
      { state with loading := b }

/-- Running a sequence of actions from the empty initial state. -/
def lmRun (acts : List LMAction) : LMState :=
  acts.foldl listManagementReducer lmInitialState

/-- The operations named by the duplicate-freedom claim (toggle, enableAll,
disableAll, add/remove custom list, favorites operations), with the
`disableAll` payload required to be duplicate-free. -/
def lmOpOk : LMAction → Prop
  | .loadConfig _ _ _ => False
  | .setLoading _ => False
  | .disableAll repos => repos.Nodup
  | _ => True

theorem lmStep_nodup (st : LMState) (a : LMAction) (ha : lmOpOk a)
    (h : st.disabledLists.Nodup) :
    (listManagementReducer st a).disabledLists.Nodup := by
  cases a with
  | loadConfig d f c => exact absurd ha id
  | setLoading b => exact absurd ha id
  | toggleList repo =>
      simp only [listManagementReducer]
      by_cases hc : st.disabledLists.contains repo
      · simp only [hc, if_true]
        exact h.filter _
      · simp only [hc, if_false]
        have hmem : repo ∉ st.disabledLists := by
          simpa using hc
        simpa using List.Nodup.append h (List.nodup_singleton repo)
          (by simpa using hmem)
  | enableAll => simp [listManagementReducer]
  | disableAll repos => simpa [listManagementReducer] using ha
  | addCustomList l =>
      simp only [listManagementReducer]
      split <;> simpa
  | removeCustomList repo => simpa [listManagementReducer] using h
  | addToFavorites repo =>
      simp only [listManagementReducer]
      split <;> simpa
  | removeFromFavorites repo => simpa [listManagementReducer] using h

theorem lmRun_nodup_aux (acts : List LMAction) :
    ∀ st : LMState, (∀ a ∈ acts, lmOpOk a) → st.disabledLists.Nodup →
      (acts.foldl listManagementReducer st).disabledLists.Nodup := by
  induction acts with
  | nil => intro st _ h; simpa using h
  | cons a rest ih =>
      intro st hops h
      simp only [List.foldl_cons]
      exact ih _ (fun b hb => hops b (List.mem_cons_of_mem a hb))
        (lmStep_nodup st a (hops a (List.mem_cons_self a rest)) h)

/-- Claim C6 counterexample: `disableAll` installs the caller-supplied array
verbatim, so starting from the empty initial state a single `disableAll` with a
duplicated repo array leaves `disabledLists` with a repeated identifier,
refuting duplicate-freedom under arbitrary payloads. -/
theorem disableAll_duplicates_cex :
    (listManagementReducer lmInitialState (LMAction.disableAll ["a", "a"])).disabledLists
        = ["a", "a"]
      ∧ ¬ (listManagementReducer lmInitialState
            (LMAction.disableAll ["a", "a"])).disabledLists.Nodup := by
  constructor
  · rfl
  · decide

/-- Claim C6 (amended): starting from the empty initial state, after any
sequence of the listed list-management operations in which every `disableAll`
payload is itself duplicate-free, every repo identifier appears at most once in
`disabledLists`; all operations other than `disableAll` preserve
duplicate-freedom unconditionally. -/
theorem disabledLists_nodup_invariant (acts : List LMAction)
    (hops : ∀ a ∈ acts, lmOpOk a) :
    (lmRun acts).disabledLists.Nodup :=
  lmRun_nodup_aux acts lmInitialState hops (by simp [lmInitialState])

/-- Witness for C6: a concrete action sequence satisfying the hypotheses. -/
theorem disabledLists_nodup_invariant_witness :
    (lmRun [LMAction.disableAll ["a", "b"], LMAction.toggleList "b",
            LMAction.toggleList "c"]).disabledLists.Nodup :=
  disabledLists_nodup_invariant _ (by intro a ha; fin_cases ha <;> simp [lmOpOk])

theorem toggle_dl_pos (st : LMState) (r : String) (h : r ∈ st.disabledLists) :
    (listManagementReducer st (LMAction.toggleList r)).disabledLists
      = st.disabledLists.filter (fun x => x != r) := by
  simp [listManagementReducer, h]

theorem toggle_dl_neg (st : LMState) (r : String) (h : r ∉ st.disabledLists) :
    (listManagementReducer st (LMAction.toggleList r)).disabledLists
      = st.disabledLists ++ [r] := by
  simp [listManagementReducer, h]

/-- Claim C10: `TOGGLE_LIST` is a membership involution on `disabledLists`:
two applications restore the membership set, one application flips the given
repo and leaves every other repo's membership unchanged. -/
theorem toggleList_involution (st : LMState) (r : String) :
    (∀ x, x ∈ (listManagementReducer (listManagementReducer st (LMAction.toggleList r))
          (LMAction.toggleList r)).disabledLists ↔ x ∈ st.disabledLists)
    ∧ (r ∈ st.disabledLists →
        r ∉ (listManagementReducer st (LMAction.toggleList r)).disabledLists)
    ∧ (r ∉ st.disabledLists →
        r ∈ (listManagementReducer st (LMAction.toggleList r)).disabledLists)
    ∧ (∀ x, x ≠ r →
        (x ∈ (listManagementReducer st (LMAction.toggleList r)).disabledLists ↔
          x ∈ st.disabledLists)) := by
  by_cases hr : r ∈ st.disabledLists
  · have h1 := toggle_dl_pos st r hr
    have hr1 : r ∉ (listManagementReducer st (LMAction.toggleList r)).disabledLists := by
      simp [h1, List.mem_filter]
    have h2 := toggle_dl_neg (listManagementReducer st (LMAction.toggleList r)) r hr1
    refine ⟨?_, fun _ => hr1, fun h => absurd hr h, ?_⟩
    · intro x
      rw [h2, h1]
      by_cases hx : x = r
      · subst hx; simpa using hr
      · simp [List.mem_filter, hx]
    · intro x hx
      rw [h1]
      simp [List.mem_filter, hx]
  · have h1 := toggle_dl_neg st r hr
    have hr1 : r ∈ (listManagementReducer st (LMAction.toggleList r)).disabledLists := by
      simp [h1]
    have h2 := toggle_dl_pos (listManagementReducer st (LMAction.toggleList r)) r hr1
    refine ⟨?_, fun h => absurd h hr, fun _ => hr1, ?_⟩
    · intro x
      rw [h2, h1]
      by_cases hx : x = r
      · subst hx; simpa [List.mem_filter] using hr
      · simp [List.mem_filter, hx]
    · intro x hx
      rw [h1]
      simp [hx]

/-- Witness for C10 at a concrete state and repo. -/
theorem toggleList_involution_witness :
    "x" ∈ (listManagementReducer (listManagementReducer
        { lmInitialState with disabledLists := ["x", "y"] } (LMAction.toggleList "x"))
        (LMAction.toggleList "x")).disabledLists ↔
      "x" ∈ ({ lmInitialState with disabledLists := ["x", "y"] } : LMState).disabledLists :=
  (toggleList_involution { lmInitialState with disabledLists := ["x", "y"] } "x").1 "x"

/-! ## Collection data model

Embeds `src/models/Collection.js`. -/

/-- A `ListRef`: one catalog entry stored inside a collection. -/
structure ListRef where
  repo : String
  name : String
  cate : String
  addedAt : String
deriving DecidableEq, Repr

/-- A user collection record as built by `createCollection`. -/
structure Collection where
  id : String
  name : String
  description : String
  lists : List ListRef
  color : String
  createdAt : String
  updatedAt : String
  isDefault : Bool
deriving DecidableEq, Repr

/-- `createCollection` on already-typed string arguments: fresh `id` and the
wall-clock reading are explicit parameters; `name` and `description` are
trimmed as in the source. -/
def createCollection (now id_ name description : String)
    (lists : List ListRef) (color : String) : Collection :=
  { id := id_, name := jsTrimS name, description := jsTrimS description,
    lists := lists, color := color, createdAt := now, updatedAt := now,
    isDefault := false }

/-! ## Collections State Manager

Embeds `collectionsReducer` and the `addCollection` action creator from the
CollectionsContext module. -/

/-- An `UPDATE_COLLECTION` patch: optional replacement values for the mutable
collection fields. -/
structure CPatch where
  name : Option String := none
  description : Option String := none
  lists : Option (List ListRef) := none
  color : Option String := none
deriving DecidableEq, Repr

/-- Applying a patch, as the object spread `{ ...c, ...updates }` does. -/
def applyPatch (c : Collection) (p : CPatch) : Collection :=
  { c with
    name := p.name.getD c.name, description := p.description.getD c.description,
    lists := p.lists.getD c.lists, color := p.color.getD c.color }

/-- State of `collectionsReducer`. -/
structure CollectionsState where
  collections : List Collection
  activeCollectionId : Option String
  loading : Bool
  error : Option String
deriving DecidableEq, Repr

/-- `initialState` of the collections reducer. -/
def collectionsInitialState : CollectionsState :=
  { collections := [], activeCollectionId := none, loading := true, error := none }

/-- Actions of `collectionsReducer` (one constructor per `ACTIONS` entry). -/
inductive CAction where
  | loadCollections (cs : List Collection)
  | addCollection (c : Collection)
  | updateCollection (id : String) (updates : CPatch)
  | deleteCollection (id : String)
  | addListToCollection (collectionId : String) (list : ListRef)
  | removeListFromCollection (collectionId : String) (repo : String)
  | reorderCollections (cs : List Collection)
  | setActiveCollection (id : Option String)
  | setError (e : String)
  | clearError
deriving DecidableEq, Repr

/-- `collectionsReducer(state, action)` translated case by case; `now` stands
for the `new Date().toISOString()` read performed inside the mutation cases. -/
def collectionsReducer (now : String) (state : CollectionsState)
    (action : CAction) : CollectionsState :=
  match action with
  | .loadCollections cs =>
      { state with collections := cs, loading := false }
  | .addCollection c =>
      { state with collections := state.collections ++ [c] }
  | .updateCollection id_ updates =>
      { state with
        collections := state.collections.map (fun c =>
          if c.id == id_ then { applyPatch c updates with updatedAt := now } else c) }
  | .deleteCollection id_ =>
      { state with
        collections := state.collections.filter (fun c => c.id != id_),
        activeCollectionId :=
          if state.activeCollectionId == some id_ then none
          else state.activeCollectionId }
  | .addListToCollection collectionId list =>
      { state with
        collections := state.collections.map (fun c =>
          if c.id != collectionId then c
          else if c.lists.any (fun l => l.repo == list.repo) then c
          else { c with lists := c.lists ++ [list], updatedAt := now }) }
  | .removeListFromCollection collectionId repo =>
      { state with
        collections := state.collections.map (fun c =>
          if c.id != collectionId then c
          else { c with lists := c.lists.filter (fun l => l.repo != repo),
                        updatedAt := now }) }
  | .reorderCollections cs =>
      { state with collections := cs }
  | .setActiveCollection id_ =>
      { state with activeCollectionId := id_ }
  | .setError e =>
      { state with error := some e }
  | .clearError =>
      { state with error := none }

/-- Claim C8: `REMOVE_LIST_FROM_COLLECTION` keeps the collection sequence
pointwise: the matching collection loses exactly the ListRefs whose `repo`
matches and gets `updatedAt := now` even when nothing matched, every other
collection (and the rest of the state) is untouched. -/
theorem removeListFromCollection_spec (now : String) (st : CollectionsState)
    (cid r : String) (i : Nat) (h : i < st.collections.length)
    (h' : i < (collectionsReducer now st
        (CAction.removeListFromCollection cid r)).collections.length) :
    (collectionsReducer now st
        (CAction.removeListFromCollection cid r)).collections.length
      = st.collections.length
    ∧ (collectionsReducer now st
        (CAction.removeListFromCollection cid r)).activeCollectionId
      = st.activeCollectionId
    ∧ (collectionsReducer now st
        (CAction.removeListFromCollection cid r)).loading = st.loading
    ∧ (collectionsReducer now st
        (CAction.removeListFromCollection cid r)).error = st.error
    ∧ (let c := st.collections.get ⟨i, h⟩
       let c' := (collectionsReducer now st
           (CAction.removeListFromCollection cid r)).collections.get ⟨i, h'⟩
       (c.id = cid →
          c'.lists = c.lists.filter (fun l => l.repo != r)
          ∧ (∀ l ∈ c'.lists, l.repo ≠ r)
          ∧ (∀ l ∈ c.lists, l.repo ≠ r → l ∈ c'.lists)
          ∧ c'.updatedAt = now
          ∧ c'.id = c.id ∧ c'.name = c.name ∧ c'.description = c.description
          ∧ c'.color = c.color ∧ c'.createdAt = c.createdAt
          ∧ c'.isDefault = c.isDefault)
       ∧ (c.id ≠ cid → c' = c)) := by
  have hc' : (collectionsReducer now st
      (CAction.removeListFromCollection cid r)).collections.get ⟨i, h'⟩
      = (fun c : Collection =>
          if c.id != cid then c
          else { c with lists := c.lists.filter (fun l => l.repo != r),
                        updatedAt := now }) (st.collections.get ⟨i, h⟩) := by
    simp [collectionsReducer, List.get_eq_getElem, List.getElem_map]
  refine ⟨by simp [collectionsReducer], rfl, rfl, rfl, ?_, ?_⟩
  · intro hid
    have hget : (collectionsReducer now st
        (CAction.removeListFromCollection cid r)).collections.get ⟨i, h'⟩
        = { st.collections.get ⟨i, h⟩ with
            lists := (st.collections.get ⟨i, h⟩).lists.filter (fun l => l.repo != r),
            updatedAt := now } := by
      rw [hc']
      have hid2 : st.collections[i].id = cid := hid
      simp [hid2]
    refine ⟨by rw [hget], ?_, ?_, by rw [hget], by rw [hget], by rw [hget],
      by rw [hget], by rw [hget], by rw [hget], by rw [hget]⟩
    · intro l hl
      rw [hget] at hl
      simp only [List.mem_filter, bne_iff_ne, ne_eq, decide_eq_true_eq] at hl
      exact hl.2
    · intro l hl hlr
      rw [hget]
      simp only [List.mem_filter, bne_iff_ne, ne_eq]
      exact ⟨hl, by simpa using hlr⟩
  · intro hid
    rw [hc']
    have hid2 : ¬ st.collections[i].id = cid := hid
    simp [bne_iff_ne, hid2]

/-- A one-element concrete collection list used by the C8 witness. -/
def collectionW8 : Collection :=
  { id := "c1", name := "N", description := "",
    lists := [{ repo := "o/r", name := "R", cate := "", addedAt := "t0" }],
    color := "#3498db", createdAt := "t0", updatedAt := "t0", isDefault := false }

/-- A concrete one-collection state used by the C8 witness. -/
def stW8 : CollectionsState :=
  { collections := [collectionW8], activeCollectionId := none,
    loading := false, error := none }

/-- Witness for C8 at a concrete one-collection state with a matching item. -/
theorem removeListFromCollection_spec_witness :
    let stW : CollectionsState := stW8
    (collectionsReducer "t2" stW
        (CAction.removeListFromCollection "c1" "o/r")).collections.length
      = stW.collections.length
    ∧ (collectionsReducer "t2" stW
        (CAction.removeListFromCollection "c1" "o/r")).activeCollectionId
      = stW.activeCollectionId
    ∧ (collectionsReducer "t2" stW
        (CAction.removeListFromCollection "c1" "o/r")).loading = stW.loading
    ∧ (collectionsReducer "t2" stW
        (CAction.removeListFromCollection "c1" "o/r")).error = stW.error
    ∧ (let c := stW.collections.get ⟨0, by decide⟩
       let c' := (collectionsReducer "t2" stW
           (CAction.removeListFromCollection "c1" "o/r")).collections.get ⟨0, by decide⟩
       (c.id = "c1" →
          c'.lists = c.lists.filter (fun l => l.repo != "o/r")
          ∧ (∀ l ∈ c'.lists, l.repo ≠ "o/r")
          ∧ (∀ l ∈ c.lists, l.repo ≠ "o/r" → l ∈ c'.lists)
          ∧ c'.updatedAt = "t2"
          ∧ c'.id = c.id ∧ c'.name = c.name ∧ c'.description = c.description
          ∧ c'.color = c.color ∧ c'.createdAt = c.createdAt
          ∧ c'.isDefault = c.isDefault)
       ∧ (c.id ≠ "c1" → c' = c)) :=
  removeListFromCollection_spec "t2" _ "c1" "o/r" 0 (by decide) (by decide)

/-- Claim C9: adding the same `repo` to a collection twice in a row is
idempotent: the second `ADD_LIST_TO_COLLECTION` leaves the whole state (every
collection record, `updatedAt` included) exactly as after the first one. -/
theorem addListToCollection_idempotent (now1 now2 : String) (st : CollectionsState)
    (cid : String) (l1 l2 : ListRef) (h : l2.repo = l1.repo) :
    collectionsReducer now2 (collectionsReducer now1 st
        (CAction.addListToCollection cid l1)) (CAction.addListToCollection cid l2)
      = collectionsReducer now1 st (CAction.addListToCollection cid l1) := by
  have hmap : ∀ c : Collection,
      (fun c =>
        if c.id != cid then c
        else if c.lists.any (fun l => l.repo == l2.repo) then c
        else { c with lists := c.lists ++ [l2], updatedAt := now2 })
      ((fun c =>
        if c.id != cid then c
        else if c.lists.any (fun l => l.repo == l1.repo) then c
        else { c with lists := c.lists ++ [l1], updatedAt := now1 }) c)
      = (fun c =>
        if c.id != cid then c
        else if c.lists.any (fun l => l.repo == l1.repo) then c
        else { c with lists := c.lists ++ [l1], updatedAt := now1 }) c := by
    intro c
    by_cases hid : c.id = cid
    · by_cases hhas : c.lists.any (fun l => l.repo == l1.repo)
      · simp [hid, hhas, h]
      · simp only [hid, bne_self_eq_false, Bool.false_eq_true, if_false, hhas]
        have : ({ c with lists := c.lists ++ [l1], updatedAt := now1 } :
            Collection).lists.any (fun l => l.repo == l2.repo) = true := by
          simp [h]
        simp [this]
    · simp [bne_iff_ne, hid]
  show ({ collectionsReducer now1 st (CAction.addListToCollection cid l1) with
      collections := _ } : CollectionsState) = _
  simp only [collectionsReducer, List.map_map]
  congr 1
  · exact List.map_congr_left (fun c _ => hmap c)

/-- A concrete state with one empty collection, used by the C9 witness. -/
def stW9 : CollectionsState :=
  { collections := [{ collectionW8 with lists := [] }],
    activeCollectionId := none, loading := false, error := none }

/-- Witness for C9 at a concrete state and pair of items sharing a repo. -/
theorem addListToCollection_idempotent_witness :
    let stW : CollectionsState := stW9
    collectionsReducer "t2" (collectionsReducer "t1" stW
        (CAction.addListToCollection "c1"
          { repo := "o/r", name := "A", cate := "", addedAt := "t1" }))
        (CAction.addListToCollection "c1"
          { repo := "o/r", name := "B", cate := "x", addedAt := "t2" })
      = collectionsReducer "t1" stW (CAction.addListToCollection "c1"
          { repo := "o/r", name := "A", cate := "", addedAt := "t1" }) :=
  addListToCollection_idempotent "t1" "t2" _ "c1" _ _ rfl

/-! ## JSON values and JavaScript dynamic semantics

Parsed JSON values, JS truthiness and the dynamically-typed fragments of the
code (`.trim()` on a value that may not be a string raises a `TypeError`,
modelled in `Except`). -/

/-- A parsed JSON value. -/
inductive Json where
  | null
  | bool (b : Bool)
  | num (n : Int)
  | str (s : String)
  | arr (xs : List Json)
  | obj (fields : List (String × Json))

/-- JS property access `j.k`: `none` is JS `undefined` (absent field or
non-object receiver). -/
def Json.getField (j : Json) (k : String) : Option Json :=
  match j with
  | .obj fields => ((fields.reverse.find? (fun p => p.1 == k)).map (fun p => p.2))
  | _ => none

/-- JS truthiness of a possibly-undefined value. -/
def jsTruthy : Option Json → Bool
  | none => false
  | some .null => false
  | some (.bool b) => b
  | some (.num n) => n != 0
  | some (.str s) => s != ""
  | some (.arr _) => true
  | some (.obj _) => true

/-- `Array.isArray`. -/
def Json.isArray : Json → Bool
  | .arr _ => true
  | _ => false

/-- JS `v.trim()` on a dynamic value: strings trim, anything else (including
`undefined`) raises a `TypeError`. -/
def jsTrimDyn : Option Json → Except String String
  | some (.str s) => .ok (jsTrimS s)
  | _ => .error "TypeError: trim is not a function"

/-- JS optional chaining `v?.trim()`: `undefined`/`null` short-circuit to
`undefined`, other non-strings raise. -/
def jsOptTrimDyn : Option Json → Except String (Option String)
  | none => .ok none
  | some .null => .ok none
  | some (.str s) => .ok (some (jsTrimS s))
  | some _ => .error "TypeError: trim is not a function"

/-- A draft object handed to `createCollection`: each field may be absent
(`none` = JS `undefined`). `name` and `description` stay dynamic because the
source calls `.trim()` on them; `lists` and `color` are passed through
untouched, so they are typed. -/
structure Draft where
  name : Option Json := none
  description : Option Json := none
  lists : Option (List ListRef) := none
  color : Option String := none

/-- `createCollection(draft)` with JS dynamic semantics: destructuring applies
the defaults (`description = ''`, `lists = []`, `color = '#3498db'`) only when
the field is `undefined`, then `name.trim()` and `description.trim()` run and
may raise. -/
def createCollectionDyn (now id_ : String) (d : Draft) : Except String Collection := do
  let n ← jsTrimDyn d.name
  let desc ← jsTrimDyn (some (d.description.getD (Json.str "")))
  pure { id := id_, name := n, description := desc, lists := d.lists.getD [],
         color := d.color.getD "#3498db", createdAt := now, updatedAt := now,
         isDefault := false }

/-- The `addCollection` action creator: builds the collection (which may
raise) and dispatches `ADD_COLLECTION`. -/
def addCollectionDyn (now id_ : String) (d : Draft) (st : CollectionsState) :
    Except String (CollectionsState × Collection) := do
  let c ← createCollectionDyn now id_ d
  pure (collectionsReducer now st (CAction.addCollection c), c)

/-- Claim C3 counterexample: `addCollection` with a draft whose `name` field is
missing raises (the underlying `name.trim()` is a `TypeError`), rather than
absorbing the malformed input. -/
theorem addCollection_missing_name_raises :
    (addCollectionDyn "t1" "id1" {} collectionsInitialState).isOk = false
    ∧ (addCollectionDyn "t1" "id1" { name := some (Json.num 5) }
        collectionsInitialState).isOk = false := by
  constructor <;> rfl

/-- Claim C3 (amended): `addCollection` completes without raising whenever the
draft's `name` is a string and its `description` is a string or absent; a
missing or non-string `name` (or a present non-string `description`) raises a
`TypeError` out of the action creator. The reducer transitions themselves are
total and never raise. -/
theorem addCollection_string_name_ok (now id_ : String) (st : CollectionsState)
    (d : Draft) (s : String) (hn : d.name = some (Json.str s))
    (hd : d.description = none ∨ ∃ t, d.description = some (Json.str t)) :
    (addCollectionDyn now id_ d st).isOk = true := by
  unfold addCollectionDyn createCollectionDyn
  rw [hn]
  rcases hd with hd | ⟨t, hd⟩ <;>
    simp [hd, jsTrimDyn, Except.isOk, Except.toBool, bind, Except.bind, pure,
      Except.pure]

/-- Witness for C3 (amended) at a concrete draft. -/
theorem addCollection_string_name_ok_witness :
    (addCollectionDyn "t1" "id1" { name := some (Json.str "My Collection") }
        collectionsInitialState).isOk = true :=
  addCollection_string_name_ok "t1" "id1" collectionsInitialState _ "My Collection"
    rfl (Or.inl rfl)

/-! ## Import Service: format detection

Embeds `detectFormat(content, filename)` from `src/services/importService.js`.
Each disjunct of the source's three `if` conditions is kept as written: the
extension test and the content-sniffing test of one format live in the same
condition, tried format by format. -/

/-- `filename.split('.').pop()?.toLowerCase()`. -/
def fileExt (filename : String) : String :=
  jsToLower ((jsSplitChar '.' filename).getLastD "")

/-- The JSON content sniff:
`content.trim().startsWith('\x7b') || content.trim().startsWith('\x5b')`. -/
def sniffsJson (content : String) : Bool :=
  jsStartsWith (jsTrimS content) "\x7b" || jsStartsWith (jsTrimS content) "\x5b"

/-- The CSV content sniff:
`content.includes(',') && content.split('\n')[0].split(',').length > 1`. -/
def sniffsCsv (content : String) : Bool :=
  jsIncludes content "," &&
    decide ((jsSplitChar ',' ((jsSplitChar '\n' content).headD "")).length > 1)

/-- The Markdown content sniff: `content.includes('# ') || content.includes('- [')`. -/
def sniffsMd (content : String) : Bool :=
  jsIncludes content "# " || jsIncludes content "- ["

/-- `detectFormat(content, filename)`: the three conditions in source order. -/
def detectFormat (content : String) (filename : String) : String :=
  if fileExt filename = "json" || sniffsJson content then "json"
  else if fileExt filename = "csv" || sniffsCsv content then "csv"
  else if fileExt filename = "md" || sniffsMd content then "markdown"
  else "unknown"

/-- Claim C2 counterexample: a `.csv` filename does not win over JSON content
sniffing — content starting with a brace is reported as json even for a file
named `data.csv`, so extension matching is not applied before all content
sniffing. -/
theorem detectFormat_csv_extension_cex :
    detectFormat "\x7b\x7d" "data.csv" = "json"
    ∧ fileExt "data.csv" = "csv" := by
  constructor <;> rfl

/-- Claim C2 (amended): `detectFormat` tries the formats in the order json,
csv, markdown, and within each format accepts either the extension match or
that format's content sniff. Hence `.json` always yields json; `.csv` yields
csv unless the content sniffs as json; `.md` yields markdown unless the
content sniffs as json or csv. -/
theorem detectFormat_precedence (content filename : String) :
    (fileExt filename = "json" → detectFormat content filename = "json")
    ∧ (fileExt filename = "csv" → sniffsJson content = false →
        detectFormat content filename = "csv")
    ∧ (fileExt filename = "md" → sniffsJson content = false →
        sniffsCsv content = false → detectFormat content filename = "markdown") := by
  refine ⟨fun h => ?_, fun h hj => ?_, fun h hj hc => ?_⟩
  · simp [detectFormat, h]
  · simp [detectFormat, h, hj]
  · simp [detectFormat, h, hj, hc]

/-- Witness for C2 (amended): a `.csv` file whose content does not sniff as
json is detected as csv. -/
theorem detectFormat_precedence_witness :
    fileExt "data.csv" = "csv" ∧ sniffsJson "plain text" = false ∧
      detectFormat "plain text" "data.csv" = "csv" :=
  ⟨rfl, by decide, (detectFormat_precedence "plain text" "data.csv").2.1 rfl
    (by decide)⟩

/-! ## Import Service: validation and backup restore

Embeds `validateCollectionData` and `importBackup` from
`src/services/importService.js`, and the Persistent Store's `importAllData`
from `src/services/storageService.js`. `importBackupData` models `importBackup`
applied to the value already produced by a successful `parseJSON`, which simply
delegates to `JSON.parse`. -/

/-- Result record of `validateCollectionData`: `vtype` is the optional `type`
field of the returned object. -/
structure ValidationResult where
  valid : Bool
  errors : List String
  vtype : Option String
deriving Repr

/-- The `forEach` body of the multiple-collections branch: per-item messages
collected in order, starting at index 0 (messages print `i + 1`). -/
def validateCollectionsItems : Nat → List Json → Except String (List String)
  | _, [] => .ok []
  | i, c :: rest => do
      let nameTrim ← jsOptTrimDyn (c.getField "name")
      let e1 :=
        if jsTruthy ((nameTrim.map Json.str)) then []
        else [s!"Collection {i + 1}: name is required"]
      let e2 :=
        if (c.getField "lists").elim false Json.isArray then []
        else [s!"Collection {i + 1}: lists must be an array"]
      let es ← validateCollectionsItems (i + 1) rest
      .ok (e1 ++ e2 ++ es)

/-- `validateCollectionData(data)`: the three shape checks in source order
(single collection, multiple collections, full backup), then the
unrecognized-structure fallback. `.trim()` calls may raise on non-strings,
hence the `Except`. -/
def validateCollectionData (data : Json) : Except String ValidationResult :=
  if !jsTruthy (some data) then
    .ok ⟨false, ["No data provided"], none⟩
  else if jsTruthy (data.getField "name") && jsTruthy (data.getField "lists") then do
    let nameTrim ← jsTrimDyn (data.getField "name")
    let e1 := if nameTrim = "" then ["Collection name is required"] else []
    let e2 :=
      if (data.getField "lists").elim false Json.isArray then []
      else ["Lists must be an array"]
    let errors := e1 ++ e2
    .ok ⟨errors.isEmpty, errors, some "collection"⟩
  else if jsTruthy (data.getField "collections")
      && (data.getField "collections").elim false Json.isArray then do
    let items := match data.getField "collections" with
      | some (.arr xs) => xs
      | _ => []
    let errors ← validateCollectionsItems 0 items
    .ok ⟨errors.isEmpty, errors, some "collections"⟩
  else if jsTruthy (data.getField "version")
      && (jsTruthy (data.getField "collections")
          || jsTruthy (data.getField "preferences")) then
    .ok ⟨true, [], some "backup"⟩
  else
    .ok ⟨false, ["Unrecognized data structure"], none⟩

/-- The Persistent Store contents as raw persisted JSON documents (`none` =
key absent), the view `importAllData` writes through. -/
structure JsonStore where
  collections : Option Json := none
  preferences : Option Json := none
  listConfig : Option Json := none
  customLists : Option Json := none
  aiSettings : Option Json := none

/-- `storageService.importAllData(data)`: saves whichever top-level fields are
(truthy-)present and ignores the rest. -/
def importAllData (data : Json) (st : JsonStore) : JsonStore :=
  let st1 := if jsTruthy (data.getField "collections") then
    { st with collections := data.getField "collections" } else st
  let st2 := if jsTruthy (data.getField "preferences") then
    { st1 with preferences := data.getField "preferences" } else st1
  let st3 := if jsTruthy (data.getField "listConfig") then
    { st2 with listConfig := data.getField "listConfig" } else st2
  let st4 := if jsTruthy (data.getField "customLists") then
    { st3 with customLists := data.getField "customLists" } else st3
  if jsTruthy (data.getField "aiSettings") then
    { st4 with aiSettings := data.getField "aiSettings" } else st4

/-- The tagged result `importBackup` hands back to its caller. -/
structure ImportOutcome where
  success : Bool
  error : Option String
  message : Option String
deriving Repr

/-- `importBackup(content)` after a successful `parseJSON(content)`: validate,
require the `backup` type, then bulk-restore through `importAllData`. Returns
the outcome together with the store it leaves behind. -/
def importBackupData (data : Json) (st : JsonStore) :
    Except String (ImportOutcome × JsonStore) := do
  let validation ← validateCollectionData data
  if !validation.valid then
    .ok (⟨false, some (String.intercalate ", " validation.errors), none⟩, st)
  else if validation.vtype ≠ some "backup" then
    .ok (⟨false, some "Not a valid backup file", none⟩, st)
  else
    .ok (⟨true, none, some "Backup restored successfully"⟩, importAllData data st)

/-- The exact payload shape `storageService.exportAllData()` produces, at
concrete small values: a `version` field and a `collections` array are both
present, as the full-backup export always guarantees. -/
def fullBackupPayload : Json :=
  Json.obj
    [("version", Json.str "1.0.0"),
     ("exportedAt", Json.str "2024-01-01T00:00:00.000Z"),
     ("collections", Json.arr []),
     ("preferences", Json.obj [("theme", Json.str "light")]),
     ("listConfig", Json.obj [("disabledLists", Json.arr []),
                              ("favoritesList", Json.arr [])]),
     ("customLists", Json.arr []),
     ("aiSettings", Json.obj [("provider", Json.str "openai")])]

/-- Claim C1 is a code bug: because `validateCollectionData` tests the
multiple-collections shape before the backup shape, any full-backup payload
carrying a `collections` array — which the full-backup export always emits —
is classified as type `collections`, so `importBackup` answers
"Not a valid backup file" and never reaches `importAllData` (the store comes
back unchanged), where the claim (and the spec) promise a success result and a
bulk restore. -/
theorem importBackup_rejects_full_backup :
    validateCollectionData fullBackupPayload
      = .ok ⟨true, [], some "collections"⟩
    ∧ importBackupData fullBackupPayload {}
      = .ok (⟨false, some "Not a valid backup file", none⟩, {}) := by
  constructor <;> rfl

/-! ## Persistent Store typed accessors and the Export Service

Embeds the typed read paths `getPreferences` / `getListConfig` /
`getAISettings` / `getCollections` / `getCustomLists` with their fallback
defaults, the store's `exportAllData`, and the Export Service's
`exportPreferences`. The store is modelled with one optional record per
namespaced key (`none` = key absent, so the accessor default applies). -/

/-- The `preferences` record with the default fields of `getPreferences`. -/
structure Preferences where
  theme : String
  defaultView : String
  showAIRecommendations : Bool
  autoSaveEnabled : Bool
  searchHistory : List String
deriving DecidableEq, Repr

/-- The `listConfig` record: `{disabledLists, favoritesList}`. -/
structure ListConfig where
  disabledLists : List String
  favoritesList : List String
deriving DecidableEq, Repr

/-- The `aiSettings` record: `{provider, apiKey, model, enabled, maxTokens}`. -/
structure AISettings where
  provider : String
  apiKey : String
  model : String
  enabled : Bool
  maxTokens : Nat
deriving DecidableEq, Repr

/-- Typed view of the Persistent Store contents (`none` = key absent). -/
structure StoreState where
  collections : Option (List Collection) := none
  preferences : Option Preferences := none
  listConfig : Option ListConfig := none
  customLists : Option (List CustomList) := none
  aiSettings : Option AISettings := none
deriving DecidableEq, Repr

/-- Default returned by `getPreferences` when nothing is stored. -/
def defaultPreferences : Preferences :=
  { theme := "light", defaultView := "grid", showAIRecommendations := true,
    autoSaveEnabled := true, searchHistory := [] }

/-- Default returned by `getListConfig` when nothing is stored. -/
def defaultListConfig : ListConfig :=
  { disabledLists := [], favoritesList := [] }

/-- Default returned by `getAISettings` when nothing is stored. -/
def defaultAISettings : AISettings :=
  { provider := "openai", apiKey := "", model := "gpt-3.5-turbo",
    enabled := false, maxTokens := 1000 }

/-- `storageService.getCollections()`. -/
def getCollections (st : StoreState) : List Collection :=
  st.collections.getD []

/-- `storageService.getPreferences()`. -/
def getPreferences (st : StoreState) : Preferences :=
  st.preferences.getD defaultPreferences

/-- `storageService.getListConfig()`. -/
def getListConfig (st : StoreState) : ListConfig :=
  st.listConfig.getD defaultListConfig

/-- `storageService.getCustomLists()`. -/
def getCustomLists (st : StoreState) : List CustomList :=
  st.customLists.getD []

/-- `storageService.getAISettings()`. -/
def getAISettings (st : StoreState) : AISettings :=
  st.aiSettings.getD defaultAISettings

/-- `STORAGE_VERSION`. -/
def STORAGE_VERSION : String := "1.0.0"

/-- The full-backup envelope `storageService.exportAllData()` returns. -/
structure BackupPayload where
  version : String
  exportedAt : String
  collections : List Collection
  preferences : Preferences
  listConfig : ListConfig
  customLists : List CustomList
  aiSettings : AISettings
deriving DecidableEq, Repr

/-- `storageService.exportAllData()`; the `exportedAt` wall-clock reading is
the explicit `now` parameter. The Export Service's full-backup path serializes
exactly this payload. -/
def exportAllData (now : String) (st : StoreState) : BackupPayload :=
  { version := STORAGE_VERSION, exportedAt := now,
    collections := getCollections st, preferences := getPreferences st,
    listConfig := getListConfig st, customLists := getCustomLists st,
    aiSettings := getAISettings st }

/-- The payload of the Export Service's `exportPreferences()`. -/
structure PreferencesExport where
  exportedAt : String
  preferences : Preferences
  listConfig : ListConfig
  aiSettings : AISettings
deriving DecidableEq, Repr

/-- `exportService.exportPreferences()`: the serialized object, with the
`apiKey` field overwritten by the empty string before serialization. -/
def exportPreferences (now : String) (st : StoreState) : PreferencesExport :=
  { exportedAt := now, preferences := getPreferences st,
    listConfig := getListConfig st,
    aiSettings := { getAISettings st with apiKey := "" } }

/-- Claim C4: the preferences-only export always serializes the `apiKey`
field as the empty string, and two runs over states differing only in the
configured API key produce identical outputs, so the configured key value
never appears in that export. -/
theorem exportPreferences_scrubs_apiKey :
    (∀ now st, (exportPreferences now st).aiSettings.apiKey = "")
    ∧ (∀ (now : String) (st : StoreState) (k1 k2 : String),
        exportPreferences now
            { st with aiSettings := some { getAISettings st with apiKey := k1 } }
          = exportPreferences now
            { st with aiSettings := some { getAISettings st with apiKey := k2 } }) := by
  constructor
  · intro now st
    rfl
  · intro now st k1 k2
    simp [exportPreferences, getAISettings, getPreferences, getListConfig]

/-- Claim C5: the full-backup export is not scrubbed — `exportAllData` copies
the stored AI settings, `apiKey` included, verbatim into the payload; only the
preferences-only export blanks the key. -/
theorem exportAllData_keeps_apiKey :
    ∀ now st, (exportAllData now st).aiSettings = getAISettings st
      ∧ (exportAllData now st).aiSettings.apiKey = (getAISettings st).apiKey
      ∧ (exportPreferences now st).aiSettings.apiKey = "" := by
  intro now st
  exact ⟨rfl, rfl, rfl⟩

/-! ## CSV serialization and the CSV import pipeline

Embeds `collectionToCSV` from the Export Service and `parseCSV` /
`parseCSVLine` / `csvToCollection` from the Import Service, at the level of
character lists so the parsing loop is a plain structural recursion. -/

/-- The regex replace `.replace(/"/g, <double quote twice>)`, character by
character. -/
def escQuotes : List Char → List Char
  | [] => []
  | c :: r => if c = '\"' then '\"' :: '\"' :: escQuotes r else c :: escQuotes r

/-- Wrapping one CSV field in double quotes. -/
def quoteField (f : List Char) : List Char :=
  '\"' :: (f ++ ['\"'])

/-- `Array.prototype.join(sep)` for a one-character separator. -/
def joinSep (sep : Char) : List (List Char) → List Char
  | [] => []
  | [x] => x
  | x :: xs => x ++ sep :: joinSep sep xs

/-- The header row of `collectionToCSV`. -/
def csvHeadersChars : List Char :=
  "Name,Repository,Category,GitHub URL,Added At".toList

/-- One data row of `collectionToCSV`: every field quote-wrapped, the name
field additionally escaping embedded quotes, `cate`/`addedAt` defaulted to the
empty string by `|| `. -/
def csvRowChars (l : ListRef) : List Char :=
  joinSep ','
    [quoteField (escQuotes l.name.toList),
     quoteField l.repo.toList,
     quoteField (jsOrS l.cate "").toList,
     quoteField ("https://github.com/" ++ l.repo).toList,
     quoteField (jsOrS l.addedAt "").toList]

/-- `exportService.collectionToCSV(collection)`: header row then one row per
list item, newline-joined. -/
def collectionToCSV (c : Collection) : String :=
  String.mk (joinSep '\n' (csvHeadersChars :: c.lists.map csvRowChars))

/-- The character loop of `parseCSVLine`: `inQ` is `inQuotes`, `cur` the
`current` accumulator, `acc` the values pushed so far; a doubled quote inside
quotes emits one quote and skips a character, any other quote toggles
`inQuotes`, a comma outside quotes pushes the trimmed field. -/
def parseCSVLineAux (inQ : Bool) (cur : List Char) (acc : List String) :
    List Char → List String
  | [] => acc ++ [String.mk (trimChars cur)]
  | c :: rest =>
    if c = '\"' then
      if inQ then
        match rest with
        | '\"' :: rest2 => parseCSVLineAux inQ (cur ++ ['\"']) acc rest2
        | r => parseCSVLineAux false cur acc r
      else parseCSVLineAux true cur acc rest
    else if c = ',' then
      if inQ then parseCSVLineAux inQ (cur ++ [c]) acc rest
      else parseCSVLineAux inQ [] (acc ++ [String.mk (trimChars cur)]) rest
    else parseCSVLineAux inQ (cur ++ [c]) acc rest
termination_by l => l.length
decreasing_by all_goals simp_arith

/-- `parseCSVLine(line)`. -/
def parseCSVLine (line : List Char) : List String :=
  parseCSVLineAux false [] [] line

/-- The `headers.forEach` row-object construction
`row[header] = values[index] || ...`: modelled as an association list (the
CSV headers in play are pairwise distinct, so first-binding lookup agrees with
the JS object's last-assignment-wins). -/
def buildRow (headers : List String) (values : List String) :
    List (String × String) :=
  headers.enum.map (fun p => (p.2, jsOrS (values.getD p.1 "") ""))

/-- Result record of `parseCSV`. -/
structure CSVParsed where
  rows : List (List (String × String))
  headers : List String
deriving DecidableEq, Repr

/-- `parseCSV(content)`: trim, split on newlines, fewer than two lines is an
error; the first line is the header row (lower-cased, trimmed field names),
each remaining line becomes a row object. -/
def parseCSV (content : String) : Except String CSVParsed :=
  match splitOnChar '\n' (trimChars content.toList) with
  | l0 :: l1 :: rest =>
      let headers := (parseCSVLine l0).map (fun h => jsTrimS (jsToLower h))
      .ok ⟨(l1 :: rest).map (fun line => buildRow headers (parseCSVLine line)),
           headers⟩
  | _ => .error "CSV must have header and at least one data row"

/-- JS property read `row[k]` on a row object; an absent key reads as the
empty string, which the consuming `||` chains treat exactly like JS
`undefined`. -/
def rowGet (row : List (String × String)) (k : String) : String :=
  ((row.find? (fun p => p.1 == k)).map (fun p => p.2)).getD ""

/-- The capture group of the GitHub-URL regex at a position right after the
`github.com/` literal: a nonempty run without slash, a slash, then another
nonempty run without slash. -/
def repoGroup (l : List Char) : Option (List Char) :=
  let owner := l.takeWhile (fun c => c ≠ '/')
  match owner, l.dropWhile (fun c => c ≠ '/') with
  | [], _ => none
  | _, '/' :: r2 =>
      let nm := r2.takeWhile (fun c => c ≠ '/')
      if nm = [] then none else some (owner ++ '/' :: nm)
  | _, _ => none

/-- Regex search for the GitHub repository pattern: try every start position,
leftmost match wins. -/
def searchGithub : List Char → Option (List Char)
  | [] => none
  | c :: r =>
      match (if ("github.com/".toList).isPrefixOf (c :: r) then
          repoGroup ((c :: r).drop "github.com/".toList.length) else none) with
      | some g => some g
      | none => searchGithub r

/-- `url.match(...)` for the GitHub repository pattern, returning the
captured `owner/repo`. -/
def matchGithubRepo (url : String) : Option String :=
  (searchGithub url.toList).map String.mk

/-- `csvToCollection(csvData, name)`: map each row through the header-variant
fallback chains, drop rows without a resolvable repo, wrap via
`createCollection` (description and color take their defaults). `now` is the
`new Date().toISOString()` read for `addedAt`, `id_` the fresh id. -/
def csvToCollection (now id_ : String)
    (csvData : List (List (String × String))) (name : String) : Collection :=
  let lists := (csvData.map (fun row =>
    ({ repo := jsOrS (jsOrS (jsOrS (rowGet row "repository") (rowGet row "repo"))
          ((matchGithubRepo (rowGet row "url")).getD "")) "",
       name := jsOrS (jsOrS (jsOrS (rowGet row "name") (rowGet row "title"))
          (rowGet row "repository")) "Unknown",
       cate := jsOrS (jsOrS (rowGet row "category") (rowGet row "cate")) "Imported",
       addedAt := now } : ListRef))).filter (fun l => l.repo != "")
  createCollection now id_ name "" lists "#3498db"

/-- The round trip of claim C7: serialize with `collectionToCSV`, re-parse
with `parseCSV`, convert back with `csvToCollection` (its default collection
name). -/
def csvRoundTrip (now id_ : String) (c : Collection) : Except String Collection :=
  match parseCSV (collectionToCSV c) with
  | .error e => .error e
  | .ok parsed => .ok (csvToCollection now id_ parsed.rows "Imported Collection")

/-- A collection whose single item name carries leading and trailing blanks
but no embedded double quotes. -/
def cexCollection : Collection :=
  { id := "c0", name := "My List", description := "",
    lists := [{ repo := "bar/foo", name := " Foo ", cate := "Tools",
                addedAt := "2024-01-01" }],
    color := "#3498db", createdAt := "t0", updatedAt := "t0", isDefault := false }

set_option maxRecDepth 8000 in
/-- Claim C7 counterexample: `parseCSVLine` trims every field it pushes, so an
item name with leading or trailing blanks (and no embedded double quotes) does
not survive the round trip: the re-imported name is the trimmed one. -/
theorem csv_roundtrip_cex :
    (csvRoundTrip "t1" "id1" cexCollection).map
        (fun c => c.lists.map (fun l => (l.name, l.repo)))
      = .ok [("Foo", "bar/foo")]
    ∧ cexCollection.lists.map (fun l => (l.name, l.repo))
      = [(" Foo ", "bar/foo")]
    ∧ (" Foo " : String) ≠ "Foo" := by
  refine ⟨?_, rfl, by decide⟩
  simp [csvRoundTrip, collectionToCSV, parseCSV, parseCSVLine,
    parseCSVLineAux, csvToCollection, buildRow, rowGet, cexCollection,
    csvRowChars, csvHeadersChars, joinSep, quoteField, escQuotes, trimChars,
    jsTrimS, jsToLower, jsOrS, splitOnChar, splitOnCharAux, createCollection,
    matchGithubRepo, searchGithub, repoGroup, List.enum, List.enumFrom,
    Function.comp, List.find?, List.filter, Except.map]

/-! ### Round-trip supporting lemmas -/

theorem jsOrS_empty_right (a : String) : jsOrS a "" = a := by
  by_cases h : a = "" <;> simp [jsOrS, h]

theorem escQuotes_id (l : List Char) (h : '\"' ∉ l) : escQuotes l = l := by
  induction l with
  | nil => rfl
  | cons c t ih =>
      have hc : c ≠ '\"' := fun hc => h (by simp [hc])
      have ht : '\"' ∉ t := fun hm => h (List.mem_cons_of_mem _ hm)
      simp [escQuotes, hc, ih ht]

theorem aux_nil (inQ : Bool) (cur : List Char) (acc : List String) :
    parseCSVLineAux inQ cur acc [] = acc ++ [String.mk (trimChars cur)] := by
  rw [parseCSVLineAux.eq_def]

theorem aux_comma_out (cur : List Char) (acc : List String) (rest : List Char) :
    parseCSVLineAux false cur acc (',' :: rest)
      = parseCSVLineAux false [] (acc ++ [String.mk (trimChars cur)]) rest := by
  rw [parseCSVLineAux.eq_def]; simp

theorem aux_comma_in (cur : List Char) (acc : List String) (rest : List Char) :
    parseCSVLineAux true cur acc (',' :: rest)
      = parseCSVLineAux true (cur ++ [',']) acc rest := by
  rw [parseCSVLineAux.eq_def]; simp

theorem aux_other (inQ : Bool) (cur : List Char) (acc : List String) (c : Char)
    (rest : List Char) (hq : c ≠ '\"') (hc : c ≠ ',') :
    parseCSVLineAux inQ cur acc (c :: rest)
      = parseCSVLineAux inQ (cur ++ [c]) acc rest := by
  rw [parseCSVLineAux.eq_def]; simp [hq, hc]

theorem aux_open (cur : List Char) (acc : List String) (rest : List Char) :
    parseCSVLineAux false cur acc ('\"' :: rest)
      = parseCSVLineAux true cur acc rest := by
  rw [parseCSVLineAux.eq_def]; simp

theorem aux_close_end (cur : List Char) (acc : List String) :
    parseCSVLineAux true cur acc ['\"'] = acc ++ [String.mk (trimChars cur)] := by
  rw [parseCSVLineAux.eq_def]
  simp only [if_pos rfl]
  exact aux_nil false cur acc

theorem aux_close_comma (cur : List Char) (acc : List String) (rest : List Char) :
    parseCSVLineAux true cur acc ('\"' :: ',' :: rest)
      = parseCSVLineAux false [] (acc ++ [String.mk (trimChars cur)]) rest := by
  rw [parseCSVLineAux.eq_def]
  simp only [if_pos rfl]
  exact aux_comma_out cur acc rest

theorem aux_inq_clean (f : List Char) (hf : '\"' ∉ f) :
    ∀ (cur : List Char) (acc : List String) (rest : List Char),
      parseCSVLineAux true cur acc (f ++ rest)
        = parseCSVLineAux true (cur ++ f) acc rest := by
  induction f with
  | nil => intro cur acc rest; simp
  | cons ch t ih =>
      intro cur acc rest
      have hch : ch ≠ '\"' := fun h => hf (by simp [h])
      have ht : '\"' ∉ t := fun h => hf (List.mem_cons_of_mem _ h)
      rw [List.cons_append]
      by_cases hcomma : ch = ','
      · subst hcomma
        rw [aux_comma_in, ih ht (cur ++ [',']) acc rest, List.append_assoc]
        rfl
      · rw [aux_other _ _ _ _ _ hch hcomma, ih ht (cur ++ [ch]) acc rest,
          List.append_assoc]
        rfl

theorem parse_quoted_fields (fs : List (List Char)) :
    ∀ (f : List Char) (acc : List String), (∀ g ∈ f :: fs, '\"' ∉ g) →
      parseCSVLineAux false [] acc (joinSep ',' ((f :: fs).map quoteField))
        = acc ++ (f :: fs).map (fun g => String.mk (trimChars g)) := by
  induction fs with
  | nil =>
      intro f acc hclean
      have hf : '\"' ∉ f := hclean f (List.mem_cons_self f [])
      show parseCSVLineAux false [] acc (quoteField f) = _
      rw [quoteField, aux_open, aux_inq_clean f hf [] acc ['\"'],
        List.nil_append, aux_close_end]
      rfl
  | cons g gs ih =>
      intro f acc hclean
      have hf : '\"' ∉ f := hclean f (List.mem_cons_self f _)
      have hrest : ∀ x ∈ g :: gs, '\"' ∉ x := fun x hx =>
        hclean x (List.mem_cons_of_mem f hx)
      have hjoin : joinSep ',' ((f :: g :: gs).map quoteField)
          = '\"' :: (f ++ ('\"' :: ',' ::
              joinSep ',' ((g :: gs).map quoteField))) := by
        show quoteField f ++ ',' :: joinSep ',' ((g :: gs).map quoteField) = _
        rw [quoteField]
        simp [List.append_assoc]
      rw [hjoin, aux_open, aux_inq_clean f hf [] acc, List.nil_append,
        aux_close_comma, ih g (acc ++ [String.mk (trimChars f)]) hrest]
      simp

theorem splitOnCharAux_no_sep (sep : Char) (l : List Char) (h : sep ∉ l) :
    splitOnCharAux sep l = (l, []) := by
  induction l with
  | nil => rfl
  | cons c t ih =>
      have hc : c ≠ sep := fun hc => h (by simp [hc])
      have ht : sep ∉ t := fun hm => h (List.mem_cons_of_mem _ hm)
      simp [splitOnCharAux, ih ht, if_neg (by simpa using hc)]

theorem splitOnCharAux_append (sep : Char) (a rest : List Char) (ha : sep ∉ a) :
    splitOnCharAux sep (a ++ sep :: rest)
      = (a, (splitOnCharAux sep rest).1 :: (splitOnCharAux sep rest).2) := by
  induction a with
  | nil => simp [splitOnCharAux]
  | cons c t ih =>
      have hc : c ≠ sep := fun hc => ha (by simp [hc])
      have ht : sep ∉ t := fun hm => ha (List.mem_cons_of_mem _ hm)
      simp [splitOnCharAux, ih ht, if_neg (by simpa using hc)]

theorem splitOnChar_joinSep (sep : Char) :
    ∀ (xs : List (List Char)), xs ≠ [] → (∀ x ∈ xs, sep ∉ x) →
      splitOnChar sep (joinSep sep xs) = xs := by
  intro xs
  induction xs with
  | nil => intro h; exact absurd rfl h
  | cons x ys ih =>
      intro _ hclean
      have hx : sep ∉ x := hclean x (List.mem_cons_self x ys)
      cases ys with
      | nil =>
          show splitOnChar sep x = [x]
          simp [splitOnChar, splitOnCharAux_no_sep sep x hx]
      | cons y zs =>
          have hrest : splitOnChar sep (joinSep sep (y :: zs)) = y :: zs :=
            ih (by simp) (fun z hz => hclean z (List.mem_cons_of_mem x hz))
          show splitOnChar sep (x ++ sep :: joinSep sep (y :: zs)) = x :: y :: zs
          simp only [splitOnChar, splitOnCharAux_append sep x _ hx] at hrest ⊢
          simpa using hrest

theorem trimChars_eq_self (l : List Char) (c1 c2 : Char) (h1 : l.head? = some c1)
    (hc1 : c1.isWhitespace = false) (h2 : l.getLast? = some c2)
    (hc2 : c2.isWhitespace = false) : trimChars l = l := by
  have hd : l.dropWhile Char.isWhitespace = l := by
    cases l with
    | nil => rfl
    | cons a t =>
        have : a = c1 := by simpa using h1
        subst this
        simp [List.dropWhile_cons, hc1]
  rw [trimChars, hd]
  have hrev : l.reverse.head? = some c2 := by rw [List.head?_reverse]; exact h2
  have hd2 : l.reverse.dropWhile Char.isWhitespace = l.reverse := by
    cases hr : l.reverse with
    | nil => rfl
    | cons b t2 =>
        have : b = c2 := by rw [hr] at hrev; simpa using hrev
        subst this
        simp [List.dropWhile_cons, hc2]
  rw [hd2, List.reverse_reverse]

theorem joinSep_head? (sep : Char) (x : List Char) (xs : List (List Char))
    (hx : x ≠ []) : (joinSep sep (x :: xs)).head? = x.head? := by
  cases x with
  | nil => exact absurd rfl hx
  | cons a t =>
      cases xs with
      | nil => rfl
      | cons y ys =>
          show ((a :: t) ++ sep :: joinSep sep (y :: ys)).head? = _
          simp

theorem joinSep_getLast? (sep : Char) :
    ∀ (xs : List (List Char)) (x : List Char), xs.getLast? = some x → x ≠ [] →
      (joinSep sep xs).getLast? = x.getLast? := by
  intro xs
  induction xs with
  | nil => intro x h; simp at h
  | cons y ys ih =>
      intro x hlast hx
      cases ys with
      | nil =>
          have : y = x := by simpa using hlast
          subst this
          rfl
      | cons z zs =>
          rw [List.getLast?_cons_cons] at hlast
          have hJ := ih x hlast hx
          show ((y ++ sep :: joinSep sep (z :: zs))).getLast? = x.getLast?
          rw [List.getLast?_append]
          have hxl : x.getLast?.isSome := by
            cases x with
            | nil => exact absurd rfl hx
            | cons a t => simp [List.getLast?]
          cases hJne : (joinSep sep (z :: zs)) with
          | nil =>
              rw [hJne] at hJ
              simp at hJ
              rw [← hJ] at hxl
              simp at hxl
          | cons b t2 =>
              rw [← hJne, show (sep :: joinSep sep (z :: zs))
                  = [sep] ++ joinSep sep (z :: zs) from rfl,
                List.getLast?_append, hJ]
              cases hx2 : x.getLast? with
              | none => rw [hx2] at hxl; simp at hxl
              | some a => simp

theorem mem_joinSep (sep : Char) (a : Char) :
    ∀ xs : List (List Char), a ∈ joinSep sep xs → a = sep ∨ ∃ x ∈ xs, a ∈ x := by
  intro xs
  induction xs with
  | nil => intro h; simp [joinSep] at h
  | cons x ys ih =>
      intro h
      cases ys with
      | nil =>
          right
          exact ⟨x, List.mem_cons_self x [], h⟩
      | cons y zs =>
          rw [show joinSep sep (x :: y :: zs) = x ++ sep :: joinSep sep (y :: zs)
            from rfl, List.mem_append] at h
          rcases h with h | h
          · exact Or.inr ⟨x, List.mem_cons_self x _, h⟩
          · rcases List.mem_cons.mp h with h | h
            · exact Or.inl h
            · rcases ih h with h | ⟨z, hz, hm⟩
              · exact Or.inl h
              · exact Or.inr ⟨z, List.mem_cons_of_mem x hz, hm⟩

theorem quoteField_getLast? (f : List Char) :
    (quoteField f).getLast? = some '\"' := by
  rw [quoteField, show '\"' :: (f ++ ['\"']) = ('\"' :: f) ++ ['\"'] from rfl,
    List.getLast?_concat]

theorem csvRowChars_getLast? (l : ListRef) :
    (csvRowChars l).getLast? = some '\"' := by
  rw [csvRowChars, joinSep_getLast? ','
    _ (quoteField (jsOrS l.addedAt "").toList) (by simp [List.getLast?])
    (by simp [quoteField])]
  exact quoteField_getLast? _

/-- The cleanliness condition of the amended round-trip claim: no embedded
double quote and no embedded newline. -/
def csvClean (s : String) : Prop :=
  '\"' ∉ s.toList ∧ '\n' ∉ s.toList

/-- A field that survives the round trip exactly: clean, already trimmed, and
nonempty. -/
def csvExact (s : String) : Prop :=
  csvClean s ∧ trimChars s.toList = s.toList ∧ s ≠ ""

theorem newline_not_mem_csvRowChars (l : ListRef) (hn : csvClean l.name)
    (hr : csvClean l.repo) (hc : csvClean l.cate) (ha : csvClean l.addedAt) :
    '\n' ∉ csvRowChars l := by
  intro hmem
  rcases mem_joinSep ',' '\n' _ hmem with h | ⟨x, hx, hm⟩
  · exact absurd h (by decide)
  · have hfield : ∀ g : List Char, x = quoteField g → '\n' ∉ g → False := by
      intro g hg hng
      subst hg
      rcases List.mem_cons.mp hm with h | h
      · exact absurd h (by decide)
      · rcases List.mem_append.mp h with h | h
        · exact hng h
        · exact absurd (List.mem_singleton.mp h) (by decide)
    simp only [List.mem_cons, List.not_mem_nil, or_false] at hx
    rcases hx with hx | hx | hx | hx | hx
    · exact hfield _ hx (by rw [escQuotes_id _ hn.1]; exact hn.2)
    · exact hfield _ hx hr.2
    · exact hfield _ hx (by rw [jsOrS_empty_right]; exact hc.2)
    · refine hfield _ hx ?_
      rw [show ("https://github.com/" ++ l.repo).toList
          = "https://github.com/".toList ++ l.repo.toList from
        String.data_append _ _]
      intro hm2
      rcases List.mem_append.mp hm2 with h | h
      · exact absurd h (by decide)
      · exact hr.2 h
    · exact hfield _ hx (by rw [jsOrS_empty_right]; exact ha.2)

theorem headers_eval :
    (parseCSVLine csvHeadersChars).map (fun h => jsTrimS (jsToLower h))
      = ["name", "repository", "category", "github url", "added at"] := by
  simp [parseCSVLine, parseCSVLineAux, csvHeadersChars, trimChars, jsTrimS,
    jsToLower]

theorem parseCSVLine_row (l : ListRef) (hn : '\"' ∉ l.name.toList)
    (hr : '\"' ∉ l.repo.toList) (hc : '\"' ∉ l.cate.toList)
    (ha : '\"' ∉ l.addedAt.toList) :
    parseCSVLine (csvRowChars l)
      = [String.mk (trimChars l.name.toList), String.mk (trimChars l.repo.toList),
         String.mk (trimChars l.cate.toList),
         String.mk (trimChars ("https://github.com/" ++ l.repo).toList),
         String.mk (trimChars l.addedAt.toList)] := by
  have hurl : '\"' ∉ ("https://github.com/" ++ l.repo).toList := by
    rw [show ("https://github.com/" ++ l.repo).toList
        = "https://github.com/".toList ++ l.repo.toList from String.data_append _ _]
    intro hm
    rcases List.mem_append.mp hm with h | h
    · exact absurd h (by decide)
    · exact hr h
  have hclean : ∀ g ∈ [escQuotes l.name.toList, l.repo.toList,
      (jsOrS l.cate "").toList, ("https://github.com/" ++ l.repo).toList,
      (jsOrS l.addedAt "").toList], '\"' ∉ g := by
    intro g hg
    simp only [List.mem_cons, List.not_mem_nil, or_false] at hg
    rcases hg with hg | hg | hg | hg | hg <;> subst hg
    · rw [escQuotes_id _ hn]; exact hn
    · exact hr
    · rw [jsOrS_empty_right]; exact hc
    · exact hurl
    · rw [jsOrS_empty_right]; exact ha
  have hrow : csvRowChars l = joinSep ','
      (([escQuotes l.name.toList, l.repo.toList, (jsOrS l.cate "").toList,
        ("https://github.com/" ++ l.repo).toList,
        (jsOrS l.addedAt "").toList]).map quoteField) := rfl
  rw [parseCSVLine, hrow, parse_quoted_fields _ _ [] hclean]
  rw [escQuotes_id _ hn]
  simp [jsOrS_empty_right]

theorem getLast?_mem_of (xs : List (List Char)) (x : List Char)
    (h : xs.getLast? = some x) : x ∈ xs := by
  induction xs with
  | nil => simp at h
  | cons y ys ih =>
      cases ys with
      | nil =>
          have : y = x := by simpa using h
          exact this ▸ List.mem_cons_self y []
      | cons z zs =>
          rw [List.getLast?_cons_cons] at h
          exact List.mem_cons_of_mem y (ih h)

theorem buildRow_eval (v0 v1 v2 v3 v4 : String) :
    buildRow ["name", "repository", "category", "github url", "added at"]
        [v0, v1, v2, v3, v4]
      = [("name", v0), ("repository", v1), ("category", v2),
         ("github url", v3), ("added at", v4)] := by
  simp [buildRow, List.enum, List.enumFrom, jsOrS_empty_right, List.getD]

theorem row_item_eval (now : String) (v0 v1 v2 v3 v4 : String) (h0 : v0 ≠ "") :
    ({ repo := jsOrS (jsOrS (jsOrS
          (rowGet [("name", v0), ("repository", v1), ("category", v2),
            ("github url", v3), ("added at", v4)] "repository")
          (rowGet [("name", v0), ("repository", v1), ("category", v2),
            ("github url", v3), ("added at", v4)] "repo"))
          ((matchGithubRepo (rowGet [("name", v0), ("repository", v1),
            ("category", v2), ("github url", v3), ("added at", v4)]
            "url")).getD "")) "",
       name := jsOrS (jsOrS (jsOrS
          (rowGet [("name", v0), ("repository", v1), ("category", v2),
            ("github url", v3), ("added at", v4)] "name")
          (rowGet [("name", v0), ("repository", v1), ("category", v2),
            ("github url", v3), ("added at", v4)] "title"))
          (rowGet [("name", v0), ("repository", v1), ("category", v2),
            ("github url", v3), ("added at", v4)] "repository")) "Unknown",
       cate := jsOrS (jsOrS
          (rowGet [("name", v0), ("repository", v1), ("category", v2),
            ("github url", v3), ("added at", v4)] "category")
          (rowGet [("name", v0), ("repository", v1), ("category", v2),
            ("github url", v3), ("added at", v4)] "cate")) "Imported",
       addedAt := now } : ListRef)
      = { repo := v1, name := v0, cate := jsOrS v2 "Imported", addedAt := now } := by
  have hname : rowGet [("name", v0), ("repository", v1), ("category", v2),
      ("github url", v3), ("added at", v4)] "name" = v0 := by
    simp [rowGet, List.find?]
  have hrepo2 : rowGet [("name", v0), ("repository", v1), ("category", v2),
      ("github url", v3), ("added at", v4)] "repository" = v1 := by
    simp [rowGet, List.find?]
  have hcate2 : rowGet [("name", v0), ("repository", v1), ("category", v2),
      ("github url", v3), ("added at", v4)] "category" = v2 := by
    simp [rowGet, List.find?]
  have habsent : ∀ k, k ∈ ["repo", "url", "title", "cate"] →
      rowGet [("name", v0), ("repository", v1), ("category", v2),
        ("github url", v3), ("added at", v4)] k = "" := by
    intro k hk
    fin_cases hk <;> simp [rowGet, List.find?]
  have hmatch : matchGithubRepo "" = none := rfl
  rw [hname, hrepo2, hcate2, habsent "repo" (by simp), habsent "url" (by simp),
    habsent "title" (by simp), habsent "cate" (by simp), hmatch]
  simp only [Option.getD_none, jsOrS_empty_right]
  have : jsOrS v0 v1 = v0 := by simp [jsOrS, h0]
  rw [this]
  have : jsOrS v0 "Unknown" = v0 := by simp [jsOrS, h0]
  rw [this]

theorem row_item_full (now : String) (l : ListRef)
    (hl : csvExact l.name ∧ csvExact l.repo ∧ csvClean l.cate
      ∧ csvClean l.addedAt) :
    ({ repo := jsOrS (jsOrS (jsOrS
          (rowGet (buildRow ["name", "repository", "category", "github url",
            "added at"] (parseCSVLine (csvRowChars l))) "repository")
          (rowGet (buildRow ["name", "repository", "category", "github url",
            "added at"] (parseCSVLine (csvRowChars l))) "repo"))
          ((matchGithubRepo (rowGet (buildRow ["name", "repository", "category",
            "github url", "added at"] (parseCSVLine (csvRowChars l)))
            "url")).getD "")) "",
       name := jsOrS (jsOrS (jsOrS
          (rowGet (buildRow ["name", "repository", "category", "github url",
            "added at"] (parseCSVLine (csvRowChars l))) "name")
          (rowGet (buildRow ["name", "repository", "category", "github url",
            "added at"] (parseCSVLine (csvRowChars l))) "title"))
          (rowGet (buildRow ["name", "repository", "category", "github url",
            "added at"] (parseCSVLine (csvRowChars l))) "repository")) "Unknown",
       cate := jsOrS (jsOrS
          (rowGet (buildRow ["name", "repository", "category", "github url",
            "added at"] (parseCSVLine (csvRowChars l))) "category")
          (rowGet (buildRow ["name", "repository", "category", "github url",
            "added at"] (parseCSVLine (csvRowChars l))) "cate")) "Imported",
       addedAt := now } : ListRef)
    = { repo := l.repo, name := l.name,
        cate := jsOrS (String.mk (trimChars l.cate.toList)) "Imported",
        addedAt := now } := by
  obtain ⟨⟨⟨hnq, hnn⟩, hnt, hne2⟩, ⟨⟨hrq, hrn⟩, hrt2, hre⟩, ⟨hcq, _⟩, ⟨haq, _⟩⟩ := hl
  rw [parseCSVLine_row l hnq hrq hcq haq, hnt, hrt2]
  rw [show String.mk l.name.toList = l.name from rfl,
    show String.mk l.repo.toList = l.repo from rfl, buildRow_eval]
  exact row_item_eval now l.name l.repo (String.mk (trimChars l.cate.toList))
    (String.mk (trimChars ("https://github.com/" ++ l.repo).toList))
    (String.mk (trimChars l.addedAt.toList)) hne2

theorem rows_items_eval (now : String) (lists : List ListRef)
    (h : ∀ l ∈ lists, csvExact l.name ∧ csvExact l.repo ∧ csvClean l.cate
      ∧ csvClean l.addedAt) :
    ((lists.map csvRowChars).map (fun line =>
        buildRow ["name", "repository", "category", "github url", "added at"]
          (parseCSVLine line))).map
      (fun row =>
        ({ repo := jsOrS (jsOrS (jsOrS (rowGet row "repository") (rowGet row "repo"))
              ((matchGithubRepo (rowGet row "url")).getD "")) "",
           name := jsOrS (jsOrS (jsOrS (rowGet row "name") (rowGet row "title"))
              (rowGet row "repository")) "Unknown",
           cate := jsOrS (jsOrS (rowGet row "category") (rowGet row "cate"))
              "Imported",
           addedAt := now } : ListRef))
      = lists.map (fun l =>
          ({ repo := l.repo, name := l.name,
             cate := jsOrS (String.mk (trimChars l.cate.toList)) "Imported",
             addedAt := now } : ListRef)) := by
  induction lists with
  | nil => rfl
  | cons a t ih =>
      simp only [List.map_cons]
      rw [row_item_full now a (h a (List.mem_cons_self a t)),
        ih (fun l hl => h l (List.mem_cons_of_mem a hl))]

/-- Claim C7 (amended): the CSV round trip preserves item count and the
`name`/`repo` fields item for item, for every collection that has at least one
list item and whose items' `name` and `repo` are nonempty, already trimmed,
and free of embedded double quotes and newlines, with `cate` and `addedAt`
free of embedded double quotes and newlines. -/
theorem csv_roundtrip_ok (now id_ : String) (c : Collection)
    (hne : c.lists ≠ [])
    (h : ∀ l ∈ c.lists, csvExact l.name ∧ csvExact l.repo ∧ csvClean l.cate
      ∧ csvClean l.addedAt) :
    (csvRoundTrip now id_ c).map
        (fun c2 => c2.lists.map (fun l => (l.name, l.repo)))
      = .ok (c.lists.map (fun l => (l.name, l.repo))) := by
  have hcontent : (collectionToCSV c).toList
      = joinSep '\n' (csvHeadersChars :: c.lists.map csvRowChars) := rfl
  obtain ⟨l0, ls, hls⟩ : ∃ l0 ls, c.lists = l0 :: ls := by
    cases hcl : c.lists with
    | nil => exact absurd hcl hne
    | cons a b => exact ⟨a, b, rfl⟩
  -- the last line of the serialized content, and its last character
  obtain ⟨xlast, hxlast⟩ : ∃ x, (csvHeadersChars :: c.lists.map csvRowChars).getLast?
      = some x := by
    cases hm : (csvHeadersChars :: c.lists.map csvRowChars).getLast? with
    | none => rw [List.getLast?_eq_none_iff] at hm; simp at hm
    | some z => exact ⟨z, rfl⟩
  have hxmem := getLast?_mem_of _ _ hxlast
  obtain ⟨cl, hcl, hclws⟩ : ∃ ch, xlast.getLast? = some ch
      ∧ ch.isWhitespace = false := by
    rcases List.mem_cons.mp hxmem with hx | hx
    · subst hx
      exact ⟨'t', by decide, by decide⟩
    · obtain ⟨l, _, hlx⟩ := List.mem_map.mp hx
      exact ⟨'\"', hlx ▸ csvRowChars_getLast? l, by decide⟩
  have hxne : xlast ≠ [] := by
    intro hx
    rw [hx] at hcl
    simp at hcl
  -- trimming the serialized content is the identity
  have htrim : trimChars (collectionToCSV c).toList = (collectionToCSV c).toList := by
    refine trimChars_eq_self _ 'N' cl ?_ (by decide) ?_ hclws
    · rw [hcontent, joinSep_head? '\n' _ _ (by decide)]
      decide
    · rw [hcontent, joinSep_getLast? '\n' _ xlast hxlast hxne]
      exact hcl
  -- no serialized line contains a newline
  have hnolines : ∀ x ∈ csvHeadersChars :: c.lists.map csvRowChars, '\n' ∉ x := by
    intro x hx
    rcases List.mem_cons.mp hx with hx | hx
    · subst hx; decide
    · obtain ⟨l, hl, hlx⟩ := List.mem_map.mp hx
      obtain ⟨⟨hn1, _, _⟩, ⟨hr1, _, _⟩, hc1, ha1⟩ := h l hl
      exact hlx ▸ newline_not_mem_csvRowChars l hn1 hr1 hc1 ha1
  have hsplit : splitOnChar '\n' (trimChars (collectionToCSV c).toList)
      = csvHeadersChars :: csvRowChars l0 :: ls.map csvRowChars := by
    rw [htrim, hcontent]
    rw [splitOnChar_joinSep '\n' _ (by simp) hnolines, hls]
    rfl
  -- the parse result
  have hparse : parseCSV (collectionToCSV c)
      = .ok ⟨(csvRowChars l0 :: ls.map csvRowChars).map (fun line =>
          buildRow ["name", "repository", "category", "github url", "added at"]
            (parseCSVLine line)),
          ["name", "repository", "category", "github url", "added at"]⟩ := by
    unfold parseCSV
    rw [hsplit]
    simp only [headers_eval]
  have hrt : csvRoundTrip now id_ c
      = .ok (csvToCollection now id_
          ((csvRowChars l0 :: ls.map csvRowChars).map (fun line =>
            buildRow ["name", "repository", "category", "github url", "added at"]
              (parseCSVLine line)))
          "Imported Collection") := by
    unfold csvRoundTrip
    rw [hparse]
  rw [hrt]
  -- assemble
  simp only [Except.map, csvToCollection, createCollection]
  rw [show csvRowChars l0 :: ls.map csvRowChars = c.lists.map csvRowChars by
    rw [hls]; rfl]
  rw [rows_items_eval now c.lists h]
  have hfilter : (c.lists.map (fun l : ListRef =>
      ({ repo := l.repo, name := l.name,
         cate := jsOrS (String.mk (trimChars l.cate.toList)) "Imported",
         addedAt := now } : ListRef))).filter (fun l => l.repo != "")
      = c.lists.map (fun l : ListRef =>
        ({ repo := l.repo, name := l.name,
           cate := jsOrS (String.mk (trimChars l.cate.toList)) "Imported",
           addedAt := now } : ListRef)) := by
    rw [List.filter_eq_self]
    intro a ha
    obtain ⟨l, hl, hla⟩ := List.mem_map.mp ha
    obtain ⟨_, ⟨_, _, hre⟩, _, _⟩ := h l hl
    rw [← hla]
    simpa using hre
  rw [hfilter, List.map_map]
  rfl

/-- A concrete well-behaved collection for the C7 witness. -/
def rtCollectionW : Collection :=
  { id := "c1", name := "My List", description := "",
    lists := [{ repo := "bar/foo", name := "Foo", cate := "Tools",
                addedAt := "2024-01-01" },
              { repo := "o/r2", name := "Second, with comma", cate := "",
                addedAt := "" }],
    color := "#3498db", createdAt := "t0", updatedAt := "t0",
    isDefault := false }

/-- Witness for C7 (amended) at a concrete two-item collection (one name even
containing a comma, which the quoting protects). -/
theorem csv_roundtrip_ok_witness :
    (csvRoundTrip "t1" "id1" rtCollectionW).map
        (fun c2 => c2.lists.map (fun l => (l.name, l.repo)))
      = .ok (rtCollectionW.lists.map (fun l => (l.name, l.repo))) :=
  csv_roundtrip_ok "t1" "id1" rtCollectionW (by decide)
    (by simp only [rtCollectionW, csvExact, csvClean]; decide)

end AwesomeSearch
